import Mathlib

/-!
# Verification of the AMM pool indexer

Shallow embedding of the swap-event reconciliation pipeline
(`src/indexer.ts`, i.e. `src/unnamed/part_003`, together with
`src/utils/decodeSwap.ts`) and proofs about it.

Modelling conventions:
* transaction signatures, public keys and mint addresses are opaque
  identifiers compared only for equality; they are embedded as `Nat`;
* raw token amounts (the `uiTokenAmount.amount` strings, read through
  JavaScript `BigInt`) are embedded as `Nat`, signed deltas as `Int`;
* JavaScript floating-point arithmetic on prices and decimal amounts is
  embedded as exact rational arithmetic over `ℚ`;
* the external ledger RPC client is a function `Nat → Option Tx`
  (`getParsedTransaction`), and the mutable module state of
  `indexer.ts` (`seen`, `chartData`, `lastSavedSignature`, the SQLite
  table and `lastFlushed`) is an explicit state record threaded through
  the operations.
-/

namespace AmmIndexer

/-- One entry of `preTokenBalances` / `postTokenBalances`: a per-account
token balance snapshot (account index into the message key list, the
token mint, and the raw integer amount). -/
structure TokenBalance where
  accountIndex : Nat
  mint : Nat
  amount : Nat
deriving DecidableEq

/-- One instruction of a parsed transaction: target program id, referenced
account keys, and the opaque payload bytes (the base58 `data` field after
decoding to bytes). -/
structure Instruction where
  programId : Nat
  accounts : List Nat
  data : List Nat
deriving DecidableEq

/-- A parsed transaction as returned by `getParsedTransaction`:
message account keys, instructions, the pre/post token-balance snapshot
lists from `tx.meta`, and the optional block time. -/
structure Tx where
  accountKeys : List Nat
  instructions : List Instruction
  preTokenBalances : List TokenBalance
  postTokenBalances : List TokenBalance
  blockTime : Option Int
deriving DecidableEq

/-- The process-wide configuration of `indexer.ts`: the swap program id,
the two mint addresses, the two vault addresses, the two mint decimal
precisions (fetched once at startup), and the wall-clock fallback used
for `Date.now() / 1e3` when a transaction has no block time. -/
structure Config where
  tokenSwapProgram : Nat
  mintA : Nat
  mintB : Nat
  vaultA : Nat
  vaultB : Nat
  decimalsA : Nat
  decimalsB : Nat
  now : Int
deriving DecidableEq

/-- The `SwapData` record pushed to `chartData` and persisted to the
`swap_data` table. -/
structure SwapData where
  timestamp : Int
  signature : Nat
  swappedFrom : Nat
  swappedTo : Nat
  amountBase : ℚ
  amountQuote : ℚ
  amountIn : ℚ
  amountOut : ℚ
  price : ℚ
  poolPrice : ℚ
deriving DecidableEq

/-- The mutable module state of `indexer.ts`: the dedup `seen` set (a JS
`Set`, iterated in insertion order, embedded as a duplicate-free list in
insertion order), the in-memory `chartData` array, the backfill cursor
`lastSavedSignature`, the rows of the SQLite `swap_data` table, and the
`lastFlushed` watermark into `chartData`. -/
structure IndexerState where
  seen : List Nat
  chartData : List SwapData
  lastSavedSignature : Option Nat
  db : List SwapData
  lastFlushed : Nat
deriving DecidableEq

/-- `buf.readBigUInt64LE(off)`: the little-endian unsigned 64-bit integer
formed by the 8 bytes starting at offset `off` (callers guarantee the
buffer is long enough; out-of-range bytes read as 0). -/
def readBigUInt64LE (b : List Nat) (off : Nat) : Nat :=
  (List.range 8).foldl (fun acc i => acc + b.getD (off + i) 0 * 256 ^ i) 0

/-- The decoded view of a swap instruction payload
(`DecodedSwap` in `src/utils/decodeSwap.ts`). -/
structure DecodedSwap where
  amountIn : Nat
  minAmountOut : Nat
deriving DecidableEq

/-- `decodeSwapInstruction` from `src/utils/decodeSwap.ts`: fails closed
(returns `none`) when the payload is shorter than 17 bytes or the leading
discriminant byte is not the swap tag 1; otherwise reads the two
little-endian u64 fields at offsets 1 and 9. -/
def decodeSwapInstruction (data : List Nat) : Option DecodedSwap :=
  if data.length < 17 || data.getD 0 0 != 1 then none
  else some ⟨readBigUInt64LE data 1, readBigUInt64LE data 9⟩

/-- `indexOfKey` from `src/utils/common.ts` (`keys.findIndex(k.equals
target)`); the sentinel `-1` of `findIndex` is embedded as `none`. -/
def indexOfKey (keys : List Nat) (target : Nat) : Option Nat :=
  keys.findIdx? (· == target)

/-- `pre.find(b => b.accountIndex === idx)` / the corresponding `post`
lookup in `handleTx`. -/
def findBal (l : List TokenBalance) (idx : Nat) : Option TokenBalance :=
  l.find? (fun b => b.accountIndex == idx)

/-- `diffAmount` from `indexer.ts`: post-amount minus pre-amount as a
signed arbitrary-precision integer, a missing snapshot on either side
counting as zero. -/
def diffAmount (bef aft : Option TokenBalance) : Int :=
  (match aft with | some a => (a.amount : Int) | none => 0) -
  (match bef with | some b => (b.amount : Int) | none => 0)

/-- `toFloatA`: convert a raw integer amount to decimal using mint A's
declared precision (`Number(x) / scaleA`, embedded exactly over `ℚ`). -/
def toFloatA (cfg : Config) (x : Int) : ℚ :=
  (x : ℚ) / (10 : ℚ) ^ cfg.decimalsA

/-- `toFloatB`: convert a raw integer amount to decimal using mint B's
declared precision. -/
def toFloatB (cfg : Config) (x : Int) : ℚ :=
  (x : ℚ) / (10 : ℚ) ^ cfg.decimalsB

/-- The user-source account of a swap instruction is its 4th referenced
account (`inst.accounts[3]`), resolved to a message-key index. -/
def resolvedSrcIdx (keys : List Nat) (inst : Instruction) : Option Nat :=
  (inst.accounts.get? 3).bind (indexOfKey keys)

/-- The user-destination account of a swap instruction is its 7th
referenced account (`inst.accounts[6]`), resolved to a message-key
index. -/
def resolvedDstIdx (keys : List Nat) (inst : Instruction) : Option Nat :=
  (inst.accounts.get? 6).bind (indexOfKey keys)

/-- The body of the `for (const inst of swaps)` loop of `handleTx`
(steps 3-1 through 3-5), as a pure function from one candidate
instruction to the event it emits, if any.  Every `continue` of the
source becomes `none`:
* tag not 1 (decode failure);
* user-source / user-destination account unresolvable;
* any of the four pre/post snapshots for source/destination missing;
* source delta not strictly negative or destination delta not strictly
  positive;
* either vault account unresolvable, or either vault post-balance
  missing. -/
def reconstructInst (cfg : Config) (keys : List Nat) (pre post : List TokenBalance)
    (blockTime : Option Int) (sig : Nat) (inst : Instruction) : Option SwapData :=
  match decodeSwapInstruction inst.data with
  | none => none
  | some _ =>
    match resolvedSrcIdx keys inst, resolvedDstIdx keys inst with
    | some srcIdx, some dstIdx =>
      match findBal pre srcIdx, findBal post srcIdx,
            findBal pre dstIdx, findBal post dstIdx with
      | some preSrc, some postSrc, some preDst, some postDst =>
        let inD := diffAmount (some preSrc) (some postSrc)
        let outD := diffAmount (some preDst) (some postDst)
        if inD ≥ 0 ∨ outD ≤ 0 then none
        else
          let amountIn := -inD
          let amountOut := outD
          let baseIsApple := preSrc.mint == cfg.mintA
          match indexOfKey keys cfg.vaultA, indexOfKey keys cfg.vaultB with
          | some vAIdx, some vBIdx =>
            match findBal post vAIdx, findBal post vBIdx with
            | some postVA, some postVB =>
              let reserveA : Int := (postVA.amount : Int)
              let reserveB : Int := (postVB.amount : Int)
              let poolPrice := toFloatB cfg reserveB / toFloatA cfg reserveA
              let amountBase := if baseIsApple then amountIn else amountOut
              let amountQuote := if baseIsApple then amountOut else amountIn
              let price := toFloatB cfg amountQuote / toFloatA cfg amountBase
              let absAmountIn :=
                if baseIsApple then toFloatA cfg amountIn else toFloatB cfg amountIn
              let absAmountOut :=
                if baseIsApple then toFloatA cfg amountOut else toFloatB cfg amountOut
              some {
                timestamp := blockTime.getD cfg.now
                signature := sig
                swappedFrom := preSrc.mint
                swappedTo := preDst.mint
                amountBase := toFloatA cfg amountBase
                amountQuote := toFloatB cfg amountQuote
                amountIn := absAmountIn
                amountOut := absAmountOut
                price := price
                poolPrice := poolPrice }
            | _, _ => none
          | _, _ => none
      | _, _, _, _ => none
    | _, _ => none

/-- One iteration of the instruction loop of `handleTx`: push the emitted
event onto `chartData`, or leave the state unchanged on rejection. -/
def applyInst (cfg : Config) (keys : List Nat) (pre post : List TokenBalance)
    (blockTime : Option Int) (sig : Nat) (st : IndexerState)
    (inst : Instruction) : IndexerState :=
  match reconstructInst cfg keys pre post blockTime sig inst with
  | none => st
  | some e => { st with chartData := st.chartData ++ [e] }

/-- Step 4 of `handleTx`: when the `seen` set holds more than 10000
signatures, delete in insertion order until only 5000 remain. -/
def trimSeen (st : IndexerState) : IndexerState :=
  if st.seen.length > 10000 then
    { st with seen := st.seen.drop (st.seen.length - 5000) }
  else st

/-- `handleTx` from `indexer.ts`: the single reconstruction pipeline used
by both backfill and the live subscription.  The `ledger` argument embeds
`connection.getParsedTransaction`; the `slot` argument is accepted (both
call sites pass it) and, as in the source, never used. -/
def handleTx (cfg : Config) (ledger : Nat → Option Tx) (sig : Nat)
    (_slot : Option Nat) (st : IndexerState) : IndexerState :=
  -- 0. dedup guard
  if sig ∈ st.seen then st
  else
    let st1 := { st with seen := st.seen ++ [sig] }
    -- 1. fetch the full transaction
    match ledger sig with
    | none => st1
    | some tx =>
      let pre := tx.preTokenBalances
      let post := tx.postTokenBalances
      if pre.isEmpty || post.isEmpty then st1
      else
        -- 2. normalized message key array (toPubkeyArray is the identity
        -- on canonical keys in this embedding)
        let keys := tx.accountKeys
        -- 3. swap-program instructions only
        let swaps := tx.instructions.filter
          (fun i => i.programId == cfg.tokenSwapProgram)
        if swaps.isEmpty then st1
        else
          let st2 := swaps.foldl (applyInst cfg keys pre post tx.blockTime sig) st1
          -- 4. trim the seen set
          let st3 := trimSeen st2
          -- 5. advance the backfill cursor
          { st3 with lastSavedSignature := some sig }

/-- The guard profile of `handleTx`: `true` exactly when a call runs to
the end of the function (reaching the seen-set trim and the cursor
update) instead of taking one of the early returns. -/
def reachesEnd (cfg : Config) (ledger : Nat → Option Tx) (sig : Nat)
    (st : IndexerState) : Bool :=
  !(st.seen.contains sig) &&
    match ledger sig with
    | none => false
    | some tx =>
      !tx.preTokenBalances.isEmpty && !tx.postTokenBalances.isEmpty &&
        !(tx.instructions.filter
            (fun i => i.programId == cfg.tokenSwapProgram)).isEmpty

/-- `INSERT OR IGNORE INTO swap_data ...`: `signature` is the table's
primary key, so a row whose signature is already present is silently
dropped. -/
def insertOrIgnore (db : List SwapData) (row : SwapData) : List SwapData :=
  if db.any (fun r => r.signature == row.signature) then db else db ++ [row]

/-- `flushToDB` from `indexer.ts`: insert the `chartData` rows past the
`lastFlushed` watermark into the store and advance the watermark.  (The
`!db` guard of the source is vacuous here: `runIndexer` opens the
database handle before any flush can run.) -/
def flushToDB (st : IndexerState) : IndexerState :=
  if st.chartData.length = st.lastFlushed then st
  else
    { st with
      db := (st.chartData.drop st.lastFlushed).foldl insertOrIgnore st.db
      lastFlushed := st.chartData.length }

/-- Number of `chartData` / store rows carrying a given signature. -/
def sigCount (l : List SwapData) (sig : Nat) : Nat :=
  (l.filter (fun e => e.signature == sig)).length

/-- The `onLogs` live-subscription callback of `runIndexer`
(`async (l, ctx) => await handleTx(l.signature, ctx.slot)`). -/
def liveLogHandler (cfg : Config) (ledger : Nat → Option Tx) (sig : Nat)
    (slot : Option Nat) (st : IndexerState) : IndexerState :=
  handleTx cfg ledger sig slot st

/-- The per-signature processing step of `backfill`
(`await handleTx(s.signature, s.slot)`). -/
def backfillStep (cfg : Config) (ledger : Nat → Option Tx) (sig : Nat)
    (slot : Option Nat) (st : IndexerState) : IndexerState :=
  handleTx cfg ledger sig slot st

/-- Modelled from the spec (§6 external interfaces, and the setup of the
gap-free-backfill property of §8; the implementation of
`connection.getSignaturesForAddress` lives outside this repository): a
simulated ledger holding transactions `T1 .. Tn` in increasing
ledger-time order, where transaction `Ti` is identified by `i`.  One page
request returns at most `limit` signatures strictly older than `before`
(`none` meaning the present) and strictly newer than `untilSig` (`none`
meaning the beginning of history), newest first. -/
def ledgerSigsPage (n : Nat) (before untilSig : Option Nat) (limit : Nat) :
    List Nat :=
  let hi := min n (before.getD (n + 1) - 1)
  let lo := untilSig.getD 0
  ((List.range' (lo + 1) (hi - lo)).reverse).take limit

/-- The page loop of `backfill` from `indexer.ts`, recorded as the list
of signatures in the order they are handed to `handleTx`.  Each page is
fetched newest-first, reversed, and processed oldest-to-newest; then
`before` moves to the oldest signature of the page just processed
(`sigs[0]` after the in-place `reverse`), and the loop stops at the
first empty page.  The `while (true)` loop is embedded with a fuel
parameter; `before` strictly decreases every iteration, so any fuel of
at least `n + 1` pages is exact. -/
def backfillVisitsAux (n limit : Nat) (fromSig : Option Nat) :
    Nat → Option Nat → List Nat
  | 0, _ => []
  | fuel + 1, before =>
    let sigs := ledgerSigsPage n before fromSig limit
    if sigs.isEmpty then []
    else
      sigs.reverse ++
        backfillVisitsAux n limit fromSig fuel (some (sigs.reverse.headD 0))

/-- `backfill(fromSig)` from `indexer.ts` over the simulated ledger of
`n` transactions: the sequence of signatures processed (each via
`handleTx`), with the source's page size of 1000 and the initial
`before = undefined`. -/
def backfillVisits (n : Nat) (fromSig : Option Nat) : List Nat :=
  backfillVisitsAux n 1000 fromSig (n + 1) none

/-! ## Concrete fixtures

A small configuration and a handful of concrete transactions used by the
closed counterexamples and witnesses.  The key universe: `10` and `11`
are the user source/destination token accounts, `300`/`400` the two pool
vaults, `100`/`200` the two mints, `1` the swap program id. -/

/-- Test configuration: both mints with 0 decimals so raw and decimal
amounts coincide. -/
def cfgW : Config :=
  { tokenSwapProgram := 1, mintA := 100, mintB := 200, vaultA := 300,
    vaultB := 400, decimalsA := 0, decimalsB := 0, now := 999 }

/-- A well-formed swap payload: tag 1, `amountIn = 1000000000`,
`minAmountOut = 1`, little-endian. -/
def swapPayloadW : List Nat :=
  [1, 0, 202, 154, 59, 0, 0, 0, 0, 1, 0, 0, 0, 0, 0, 0, 0]

/-- The decoded form of `swapPayloadW`. -/
def swapDecodedW : DecodedSwap := ⟨1000000000, 1⟩

/-- A swap instruction referencing user source `10` (4th account) and
user destination `11` (7th account). -/
def instW : Instruction :=
  { programId := 1, accounts := [0, 0, 0, 10, 0, 0, 11], data := swapPayloadW }

/-- Message account keys shared by the concrete transactions. -/
def keysW : List Nat := [10, 11, 300, 400]

/-- An A→B swap: the user source account holds mint A and loses 3 raw
units, the destination holds mint B and gains 6. -/
def txAW : Tx :=
  { accountKeys := keysW
    instructions := [instW]
    preTokenBalances := [⟨0, 100, 10⟩, ⟨1, 200, 0⟩]
    postTokenBalances := [⟨0, 100, 7⟩, ⟨1, 200, 6⟩, ⟨2, 100, 50⟩, ⟨3, 200, 75⟩]
    blockTime := some 1111 }

/-- A B→A swap: the user source account holds mint B and loses 2 raw
units, the destination holds mint A and gains 1. -/
def txBW : Tx :=
  { accountKeys := keysW
    instructions := [instW]
    preTokenBalances := [⟨0, 200, 10⟩, ⟨1, 100, 0⟩]
    postTokenBalances := [⟨0, 200, 8⟩, ⟨1, 100, 1⟩, ⟨2, 100, 100⟩, ⟨3, 200, 200⟩]
    blockTime := some 1111 }

/-- The event `handleTx` emits for `txBW` under `cfgW` (signature 42). -/
def evBW : SwapData :=
  { timestamp := 1111, signature := 42, swappedFrom := 200, swappedTo := 100,
    amountBase := 1, amountQuote := 2, amountIn := 2, amountOut := 1,
    price := 2, poolPrice := 2 }

/-- The event `handleTx` emits for `txAW` under `cfgW` (signature 7). -/
def evAW : SwapData :=
  { timestamp := 1111, signature := 7, swappedFrom := 100, swappedTo := 200,
    amountBase := 3, amountQuote := 6, amountIn := 3, amountOut := 6,
    price := 2, poolPrice := 3 / 2 }

/-- A transaction with token balances but whose only instruction targets
a different program (id 55): `handleTx` takes the
`if (!swaps.length) return` early exit. -/
def txSkipW : Tx :=
  { accountKeys := keysW
    instructions :=
      [{ programId := 55, accounts := [0, 0, 0, 10, 0, 0, 11], data := swapPayloadW }]
    preTokenBalances := [⟨0, 100, 10⟩]
    postTokenBalances := [⟨0, 100, 7⟩]
    blockTime := some 1 }

/-- The empty initial state. -/
def st0 : IndexerState :=
  { seen := [], chartData := [], lastSavedSignature := none, db := [],
    lastFlushed := 0 }

/-- The event `handleTx` emits for `txAW` when it carries signature 1. -/
def evA1W : SwapData :=
  { timestamp := 1111, signature := 1, swappedFrom := 100, swappedTo := 200,
    amountBase := 3, amountQuote := 6, amountIn := 3, amountOut := 6,
    price := 2, poolPrice := 3 / 2 }

/-- A transaction whose single swap-program instruction has a 1-byte
payload, so decoding rejects it; `handleTx` still runs to the end
(reaching the seen-set trim) on it. -/
def txTrimW : Tx :=
  { accountKeys := [10], instructions := [⟨1, [], [9]⟩],
    preTokenBalances := [⟨0, 100, 5⟩], postTokenBalances := [⟨0, 100, 5⟩],
    blockTime := some 2 }

/-- Ledger for the re-delivery scenario: the swap `txAW` at signature 1
and the trim-triggering `txTrimW` at signature 2; every other signature
(in particular the 10000 filler signatures 10..10009) resolves to
nothing. -/
def ledgerC3 : Nat → Option Tx :=
  fun s => if s = 1 then some txAW else if s = 2 then some txTrimW else none

/-- State reached from `st0` under `ledgerC3` by delivering signature 1
(which emits `evA1W`) and then the 10000 filler signatures 10..10009
(each returns `none` from the ledger but still lands in the seen set). -/
def stC3 : IndexerState :=
  { seen := 1 :: (List.range 10000).map (fun i => i + 10),
    chartData := [evA1W], lastSavedSignature := some 1, db := [],
    lastFlushed := 0 }

/-! ## Helper lemmas -/

theorem range'_drop (s n m : Nat) :
    (List.range' s n).drop m = List.range' (s + m) (n - m) := by
  induction m generalizing s n with
  | zero => simp
  | succ m ih =>
    cases n with
    | zero => simp
    | succ n =>
      rw [List.range'_succ, List.drop_succ_cons, ih]
      congr 1 <;> omega

theorem ledgerSigsPage_reverse (n limit : Nat) (before untilSig : Option Nat) :
    (ledgerSigsPage n before untilSig limit).reverse =
      List.range'
        (untilSig.getD 0 + 1 +
          ((min n (before.getD (n + 1) - 1) - untilSig.getD 0) - limit))
        (min limit (min n (before.getD (n + 1) - 1) - untilSig.getD 0)) := by
  unfold ledgerSigsPage
  rw [List.take_reverse, List.reverse_reverse, List.length_range', range'_drop]
  congr 1
  omega

theorem backfillVisitsAux_perm (n limit : Nat) (fromSig : Option Nat)
    (hlim : 0 < limit) :
    ∀ (fuel : Nat) (before : Option Nat),
      min n (before.getD (n + 1) - 1) - fromSig.getD 0 ≤ fuel →
      (backfillVisitsAux n limit fromSig fuel before).Perm
        (List.range' (fromSig.getD 0 + 1)
          (min n (before.getD (n + 1) - 1) - fromSig.getD 0)) := by
  intro fuel
  induction fuel with
  | zero =>
    intro before h
    have h0 : min n (before.getD (n + 1) - 1) - fromSig.getD 0 = 0 := by omega
    rw [h0]
    simp [backfillVisitsAux]
  | succ fuel ih =>
    intro before h
    have hrev := ledgerSigsPage_reverse n limit before fromSig
    by_cases hs : min n (before.getD (n + 1) - 1) - fromSig.getD 0 = 0
    · have hnil : ledgerSigsPage n before fromSig limit = [] := by
        have : (ledgerSigsPage n before fromSig limit).reverse = [] := by
          rw [hrev, hs]
          simp
        simpa using this
      rw [hs]
      simp [backfillVisitsAux, hnil]
    · have hspos : 0 < min n (before.getD (n + 1) - 1) - fromSig.getD 0 := by omega
      have hminpos : 0 < min limit (min n (before.getD (n + 1) - 1) - fromSig.getD 0) := by
        omega
      have hne : (ledgerSigsPage n before fromSig limit).isEmpty = false := by
        rw [List.isEmpty_eq_false_iff_exists_mem]
        have : (ledgerSigsPage n before fromSig limit).reverse ≠ [] := by
          rw [hrev]
          simp only [ne_eq, List.range'_eq_nil]
          omega
        rcases List.exists_mem_of_ne_nil _ (by simpa using this) with ⟨a, ha⟩
        exact ⟨a, ha⟩
      have hhead : (ledgerSigsPage n before fromSig limit).reverse.headD 0 =
          fromSig.getD 0 + 1 +
            ((min n (before.getD (n + 1) - 1) - fromSig.getD 0) - limit) := by
        rw [hrev]
        rcases Nat.exists_eq_add_of_lt hminpos with ⟨k, hk⟩
        simp only [Nat.zero_add] at hk
        rw [hk, List.range'_succ]
        rfl
      have hb' :
          min n ((fromSig.getD 0 + 1 +
              ((min n (before.getD (n + 1) - 1) - fromSig.getD 0) - limit)) - 1) -
            fromSig.getD 0 =
          (min n (before.getD (n + 1) - 1) - fromSig.getD 0) - limit := by
        omega
      have hih := ih (some (fromSig.getD 0 + 1 +
        ((min n (before.getD (n + 1) - 1) - fromSig.getD 0) - limit)))
      simp only [Option.getD_some] at hih
      rw [hb'] at hih
      have hih' := hih (by omega)
      show (backfillVisitsAux n limit fromSig (fuel + 1) before).Perm _
      simp only [backfillVisitsAux]
      rw [if_neg (by simp [hne]), hhead, hrev]
      refine List.Perm.trans (List.Perm.append_left _ hih') ?_
      refine List.Perm.trans (List.perm_append_comm) ?_
      rw [List.range'_append_1]
      have : min limit (min n (before.getD (n + 1) - 1) - fromSig.getD 0) +
          ((min n (before.getD (n + 1) - 1) - fromSig.getD 0) - limit) =
          min n (before.getD (n + 1) - 1) - fromSig.getD 0 := by omega
      rw [this]

/-- Inversion principle for `reconstructInst`: a successfully emitted
event pins down every intermediate lookup, both delta signs, and the
exact shape of the event record. -/
theorem reconstructInst_some_inv (cfg : Config) (keys : List Nat)
    (pre post : List TokenBalance) (bt : Option Int) (sig : Nat)
    (inst : Instruction) (e : SwapData)
    (h : reconstructInst cfg keys pre post bt sig inst = some e) :
    ∃ dec srcIdx dstIdx preSrc postSrc preDst postDst vAIdx vBIdx postVA postVB,
      decodeSwapInstruction inst.data = some dec ∧
      resolvedSrcIdx keys inst = some srcIdx ∧
      resolvedDstIdx keys inst = some dstIdx ∧
      findBal pre srcIdx = some preSrc ∧
      findBal post srcIdx = some postSrc ∧
      findBal pre dstIdx = some preDst ∧
      findBal post dstIdx = some postDst ∧
      diffAmount (some preSrc) (some postSrc) < 0 ∧
      0 < diffAmount (some preDst) (some postDst) ∧
      indexOfKey keys cfg.vaultA = some vAIdx ∧
      indexOfKey keys cfg.vaultB = some vBIdx ∧
      findBal post vAIdx = some postVA ∧
      findBal post vBIdx = some postVB ∧
      e = { timestamp := bt.getD cfg.now
            signature := sig
            swappedFrom := preSrc.mint
            swappedTo := preDst.mint
            amountBase := toFloatA cfg
              (if preSrc.mint == cfg.mintA
                then -diffAmount (some preSrc) (some postSrc)
                else diffAmount (some preDst) (some postDst))
            amountQuote := toFloatB cfg
              (if preSrc.mint == cfg.mintA
                then diffAmount (some preDst) (some postDst)
                else -diffAmount (some preSrc) (some postSrc))
            amountIn :=
              if preSrc.mint == cfg.mintA
                then toFloatA cfg (-diffAmount (some preSrc) (some postSrc))
                else toFloatB cfg (-diffAmount (some preSrc) (some postSrc))
            amountOut :=
              if preSrc.mint == cfg.mintA
                then toFloatA cfg (diffAmount (some preDst) (some postDst))
                else toFloatB cfg (diffAmount (some preDst) (some postDst))
            price :=
              toFloatB cfg
                (if preSrc.mint == cfg.mintA
                  then diffAmount (some preDst) (some postDst)
                  else -diffAmount (some preSrc) (some postSrc)) /
              toFloatA cfg
                (if preSrc.mint == cfg.mintA
                  then -diffAmount (some preSrc) (some postSrc)
                  else diffAmount (some preDst) (some postDst))
            poolPrice :=
              toFloatB cfg (postVB.amount : Int) /
                toFloatA cfg (postVA.amount : Int) } := by
  unfold reconstructInst at h
  split at h
  · exact absurd h (by simp)
  next dec hdec =>
    split at h
    case h_2 => exact absurd h (by simp)
    next srcIdx dstIdx hsrc hdst =>
      split at h
      case h_2 => exact absurd h (by simp)
      next preSrc postSrc preDst postDst hps hqs hpd hqd =>
        split at h
        case h_2 => exact absurd h (by simp)
        next vAIdx vBIdx hva hvb =>
          split at h
          case h_2 => exact absurd h (by simp)
          next postVA postVB hpva hpvb =>
            simp only [ge_iff_le] at h
            split at h
            · exact absurd h (by simp)
            next hsign =>
              push_neg at hsign
              refine ⟨dec, srcIdx, dstIdx, preSrc, postSrc, preDst, postDst,
                vAIdx, vBIdx, postVA, postVB, hdec, hsrc, hdst, hps, hqs,
                hpd, hqd, hsign.1, hsign.2, hva, hvb, hpva, hpvb, ?_⟩
              injection h with h
              subst h
              rfl

theorem div_quote_aux1 (p q x y : ℚ) (hp : p ≠ 0) (hq : q ≠ 0) (hx : x ≠ 0) :
    (y / q) / (x / p) = (p / q) * ((y / p) / (x / p)) := by
  field_simp
  ring

theorem div_quote_aux2 (p q x y : ℚ) (_hp : p ≠ 0) (hq : q ≠ 0) (hx : x ≠ 0) :
    (y / q) / (x / p) = (p / q) * ((y / q) / (x / q)) := by
  field_simp
  ring

theorem applyInst_seen (cfg : Config) (keys : List Nat)
    (pre post : List TokenBalance) (bt : Option Int) (sig : Nat)
    (st : IndexerState) (inst : Instruction) :
    (applyInst cfg keys pre post bt sig st inst).seen = st.seen := by
  unfold applyInst
  cases reconstructInst cfg keys pre post bt sig inst <;> rfl

theorem applyInst_lastSaved (cfg : Config) (keys : List Nat)
    (pre post : List TokenBalance) (bt : Option Int) (sig : Nat)
    (st : IndexerState) (inst : Instruction) :
    (applyInst cfg keys pre post bt sig st inst).lastSavedSignature =
      st.lastSavedSignature := by
  unfold applyInst
  cases reconstructInst cfg keys pre post bt sig inst <;> rfl

theorem applyInst_db (cfg : Config) (keys : List Nat)
    (pre post : List TokenBalance) (bt : Option Int) (sig : Nat)
    (st : IndexerState) (inst : Instruction) :
    (applyInst cfg keys pre post bt sig st inst).db = st.db := by
  unfold applyInst
  cases reconstructInst cfg keys pre post bt sig inst <;> rfl

theorem foldl_applyInst_chartData (cfg : Config) (keys : List Nat)
    (pre post : List TokenBalance) (bt : Option Int) (sig : Nat)
    (l : List Instruction) (st : IndexerState) :
    l.foldl (applyInst cfg keys pre post bt sig) st =
      { st with chartData := st.chartData ++
          l.filterMap (reconstructInst cfg keys pre post bt sig) } := by
  induction l generalizing st with
  | nil => simp
  | cons a l ih =>
    rw [List.foldl_cons, ih]
    unfold applyInst
    cases hr : reconstructInst cfg keys pre post bt sig a with
    | none => simp [List.filterMap_cons, hr]
    | some e => simp [List.filterMap_cons, hr]

/-- Unfolding of `handleTx` on the full path: with a fresh signature, a
found transaction, non-empty snapshots and at least one swap-program
instruction, the call appends the reconstructed events, records the
signature in the seen set, trims it, and advances the cursor. -/
theorem handleTx_full (cfg : Config) (ledger : Nat → Option Tx) (sig : Nat)
    (slot : Option Nat) (st : IndexerState) (tx : Tx)
    (hseen : sig ∉ st.seen) (htx : ledger sig = some tx)
    (hpre : tx.preTokenBalances.isEmpty = false)
    (hpost : tx.postTokenBalances.isEmpty = false)
    (hsw : (tx.instructions.filter
        (fun i => i.programId == cfg.tokenSwapProgram)).isEmpty = false) :
    handleTx cfg ledger sig slot st =
      { trimSeen
          { st with
            seen := st.seen ++ [sig]
            chartData := st.chartData ++
              (tx.instructions.filter
                  (fun i => i.programId == cfg.tokenSwapProgram)).filterMap
                (reconstructInst cfg tx.accountKeys tx.preTokenBalances
                  tx.postTokenBalances tx.blockTime sig) }
        with lastSavedSignature := some sig } := by
  unfold handleTx
  rw [if_neg hseen, htx]
  dsimp only
  rw [if_neg (by simp [hpre, hpost]), if_neg (by simp [hsw]),
    foldl_applyInst_chartData]

theorem foldl_applyInst_lastSaved (cfg : Config) (keys : List Nat)
    (pre post : List TokenBalance) (bt : Option Int) (sig : Nat)
    (l : List Instruction) (st : IndexerState) :
    (l.foldl (applyInst cfg keys pre post bt sig) st).lastSavedSignature =
      st.lastSavedSignature := by
  induction l generalizing st with
  | nil => rfl
  | cons a l ih => rw [List.foldl_cons, ih, applyInst_lastSaved]

theorem trimSeen_lastSaved (st : IndexerState) :
    (trimSeen st).lastSavedSignature = st.lastSavedSignature := by
  unfold trimSeen
  split <;> rfl

/-! ## Claim theorems -/

set_option maxRecDepth 1000000 in
/-- C2 (counterexample): with the source's page size of 1000, a backfill
over a simulated ledger of 1002 transactions from a cursor at T1 does
not visit T2 .. T1002 in increasing ledger-time order: the first fetched
page is the newest 1000 signatures, so T3 .. T1002 are processed before
T2. -/
theorem backfill_not_globally_increasing :
    backfillVisits 1002 (some 1) ≠ List.range' 2 1001 := by
  decide

/-- C2 (amended): `backfill(Tk)` over a simulated ledger of `n`
transactions with a cursor at `Tk` processes each of `Tk+1 .. Tn`
exactly once (the visit sequence is a permutation of `k+1 .. n`);
processing is in increasing ledger-time order within each fetched page,
but pages are fetched newest-first, so the order across the whole pass
is not increasing once more than one page is needed. -/
theorem backfill_visits_exactly_once (n : Nat) (fromSig : Option Nat) :
    (backfillVisits n fromSig).Perm
      (List.range' (fromSig.getD 0 + 1) (n - fromSig.getD 0)) := by
  have h := backfillVisitsAux_perm n 1000 fromSig (by omega) (n + 1) none
    (by simp; omega)
  simpa using h

/-- Ledger holding only `txBW` at signature 42. -/
def ledgerBW : Nat → Option Tx := fun s => if s = 42 then some txBW else none

/-- Ledger holding only `txSkipW` at signature 9. -/
def ledgerSkipW : Nat → Option Tx := fun s => if s = 9 then some txSkipW else none

/-- C6: `decode(payload)` returns `null` exactly when the payload is
shorter than the 17-byte layout or its leading byte is not the swap tag
1; otherwise it returns the two little-endian unsigned 64-bit fields at
offsets 1 and 9.  (The embedding is a pure function, matching the
source's lack of side effects.) -/
theorem decodeSwapInstruction_contract (b : List Nat) :
    (decodeSwapInstruction b = none ↔ b.length < 17 ∨ b.getD 0 0 ≠ 1) ∧
    ∀ r, decodeSwapInstruction b = some r →
      r.amountIn = readBigUInt64LE b 1 ∧ r.minAmountOut = readBigUInt64LE b 9 := by
  unfold decodeSwapInstruction
  by_cases hb : (decide (b.length < 17) || b.getD 0 0 != 1) = true
  · rw [if_pos hb]
    constructor
    · simpa using hb
    · intro r h
      exact absurd h (by simp)
  · rw [if_neg hb]
    simp only [Bool.or_eq_true, decide_eq_true_eq, bne_iff_ne, ne_eq, not_or,
      not_lt, Decidable.not_not] at hb
    constructor
    · constructor
      · intro h
        exact absurd h (by simp)
      · intro h
        rcases h with h | h
        · omega
        · exact absurd hb.2 h
    · intro r h
      injection h with h
      subst h
      exact ⟨rfl, rfl⟩

/-- C6 witness: the contract applied to the concrete payload
`swapPayloadW` (tag 1, amountIn 10^9, minAmountOut 1). -/
theorem decodeSwapInstruction_contract_witness :
    swapDecodedW.amountIn = readBigUInt64LE swapPayloadW 1 ∧
    swapDecodedW.minAmountOut = readBigUInt64LE swapPayloadW 9 :=
  (decodeSwapInstruction_contract swapPayloadW).2 swapDecodedW (by decide)

/-- C9: a transaction delivered by the live `onLogs` subscription and
the same transaction delivered by `backfill` are processed by the same
reconstruction function `handleTx`, so the two code paths produce
identical results on identical inputs. -/
theorem live_equals_backfill (cfg : Config) (ledger : Nat → Option Tx)
    (sig : Nat) (slot : Option Nat) (st : IndexerState) :
    liveLogHandler cfg ledger sig slot st = backfillStep cfg ledger sig slot st :=
  rfl

/-- C10: for a signature already in the seen set, `handleTx` returns
immediately and the entire state — `chartData`, the cursor, the flush
watermark, the store and the seen set itself — is unchanged. -/
theorem handleTx_seen_frame (cfg : Config) (ledger : Nat → Option Tx)
    (sig : Nat) (slot : Option Nat) (st : IndexerState) (h : sig ∈ st.seen) :
    handleTx cfg ledger sig slot st = st := by
  unfold handleTx
  rw [if_pos h]

/-- C10 witness: re-delivering signature 42 to a state that has already
seen it changes nothing. -/
theorem handleTx_seen_frame_witness :
    handleTx cfgW ledgerBW 42
      none { st0 with seen := [42] } = { st0 with seen := [42] } :=
  handleTx_seen_frame cfgW ledgerBW 42 none { st0 with seen := [42] } (by decide)

/-- C8 (counterexample): `handleTx` completes processing of signature 9
— a transaction with balance snapshots whose only instruction targets a
different program, so every instruction is rejected — yet the cursor is
not advanced to 9: the `if (!swaps.length) return` exit skips the
`lastSavedSignature = signature` update. -/
theorem handleTx_cursor_not_advanced_on_skip :
    (handleTx cfgW ledgerSkipW 9 none st0).lastSavedSignature ≠ some 9 := by
  decide

/-- C8 (amended): the cursor update is the last effect of `handleTx` and
happens exactly when the call passes all the early-return guards (new
signature, transaction found, non-empty pre and post snapshots, at least
one swap-program instruction); in that case the cursor equals the
processed signature even when every instruction is rejected, and any
early return leaves the cursor unchanged. -/
theorem handleTx_cursor_characterization (cfg : Config)
    (ledger : Nat → Option Tx) (sig : Nat) (slot : Option Nat)
    (st : IndexerState) :
    (handleTx cfg ledger sig slot st).lastSavedSignature =
      if reachesEnd cfg ledger sig st then some sig
      else st.lastSavedSignature := by
  unfold handleTx reachesEnd
  by_cases hseen : sig ∈ st.seen
  · rw [if_pos hseen]
    simp [hseen]
  · rw [if_neg hseen]
    cases hled : ledger sig with
    | none => simp [hseen]
    | some tx =>
      cases hpre : tx.preTokenBalances.isEmpty with
      | true => simp [hseen, hpre]
      | false =>
        cases hpost : tx.postTokenBalances.isEmpty with
        | true => simp [hseen, hpre, hpost]
        | false =>
          cases hsw : (tx.instructions.filter
              (fun i => i.programId == cfg.tokenSwapProgram)).isEmpty with
          | true => simp [hseen, hpre, hpost, hsw]
          | false => simp [hseen, hpre, hpost, hsw]

set_option maxRecDepth 1000000 in
/-- C1 (counterexample): `handleTx` processing the B→A swap `txBW`
(source mint is mint B) emits an event whose `price` field is 2 while
`amountOut / amountIn = 1/2`: the recorded price is the B-per-A quote of
the trade, not `amountOut / amountIn`. -/
theorem price_not_out_over_in :
    (handleTx cfgW ledgerBW 42 none st0).chartData = [evBW] ∧
    evBW.price ≠ evBW.amountOut / evBW.amountIn := by
  with_unfolding_all decide

/-- C1 (amended): for every emitted `SwapEvent`, the `price` field is
the trade's quote-per-base ratio with mint A fixed as base: it equals
`(10^decimalsA / 10^decimalsB) * amountOut / amountIn` when the source
mint is mint A, and `(10^decimalsA / 10^decimalsB) * amountIn /
amountOut` when it is not (the `amountIn` / `amountOut` fields are both
scaled by the source mint's precision). -/
theorem reconstructInst_price (cfg : Config) (keys : List Nat)
    (pre post : List TokenBalance) (bt : Option Int) (sig : Nat)
    (inst : Instruction) (e : SwapData)
    (h : reconstructInst cfg keys pre post bt sig inst = some e) :
    e.price = ((10 : ℚ) ^ cfg.decimalsA / (10 : ℚ) ^ cfg.decimalsB) *
      (if e.swappedFrom = cfg.mintA then e.amountOut / e.amountIn
       else e.amountIn / e.amountOut) := by
  obtain ⟨dec, si, di, preSrc, postSrc, preDst, postDst, vA, vB, pVA, pVB,
    _, _, _, _, _, _, _, hin, hout, _, _, _, _, he⟩ :=
    reconstructInst_some_inv cfg keys pre post bt sig inst e h
  subst he
  dsimp only
  have hA : (0 : ℚ) < (10 : ℚ) ^ cfg.decimalsA := by positivity
  have hB : (0 : ℚ) < (10 : ℚ) ^ cfg.decimalsB := by positivity
  have hinq : (0 : ℚ) < ((-diffAmount (some preSrc) (some postSrc) : Int) : ℚ) := by
    have h1 : (0 : Int) < -diffAmount (some preSrc) (some postSrc) := by omega
    exact_mod_cast h1
  have houtq : (0 : ℚ) < ((diffAmount (some preDst) (some postDst) : Int) : ℚ) := by
    exact_mod_cast hout
  by_cases hb : preSrc.mint = cfg.mintA
  · have hb2 : (preSrc.mint == cfg.mintA) = true := by simpa using hb
    rw [if_pos hb]
    simp only [if_pos hb2, toFloatA, toFloatB]
    exact div_quote_aux1 _ _ _ _ (ne_of_gt hA) (ne_of_gt hB) (ne_of_gt hinq)
  · have hb2 : ¬((preSrc.mint == cfg.mintA) = true) := by simpa using hb
    rw [if_neg hb]
    simp only [if_neg hb2, toFloatA, toFloatB]
    exact div_quote_aux2 _ _ _ _ (ne_of_gt hA) (ne_of_gt hB) (ne_of_gt houtq)

set_option maxRecDepth 1000000 in
/-- C1 (amended) witness: the amended price law evaluated on the
concrete A→B swap `txAW`. -/
theorem reconstructInst_price_witness :
    evAW.price = ((10 : ℚ) ^ cfgW.decimalsA / (10 : ℚ) ^ cfgW.decimalsB) *
      (if evAW.swappedFrom = cfgW.mintA then evAW.amountOut / evAW.amountIn
       else evAW.amountIn / evAW.amountOut) :=
  reconstructInst_price cfgW keysW txAW.preTokenBalances
    txAW.postTokenBalances txAW.blockTime 7 instW evAW
    (by with_unfolding_all decide)

/-- C5: an instruction is emitted as a `SwapEvent` only when the
user-source delta is strictly negative and the user-destination delta is
strictly positive — if the resolved lookups yield any other sign
combination the instruction produces no event — and every emitted event
has `amountIn > 0` and `amountOut > 0`. -/
theorem reconstructInst_sign_guard (cfg : Config) (keys : List Nat)
    (pre post : List TokenBalance) (bt : Option Int) (sig : Nat)
    (inst : Instruction) :
    (∀ si di preSrc postSrc preDst postDst,
      resolvedSrcIdx keys inst = some si →
      resolvedDstIdx keys inst = some di →
      findBal pre si = some preSrc →
      findBal post si = some postSrc →
      findBal pre di = some preDst →
      findBal post di = some postDst →
      (0 ≤ diffAmount (some preSrc) (some postSrc) ∨
        diffAmount (some preDst) (some postDst) ≤ 0) →
      reconstructInst cfg keys pre post bt sig inst = none) ∧
    ∀ e, reconstructInst cfg keys pre post bt sig inst = some e →
      0 < e.amountIn ∧ 0 < e.amountOut := by
  constructor
  · intro si di preSrc postSrc preDst postDst hsi hdi hps hqs hpd hqd hsign
    cases hr : reconstructInst cfg keys pre post bt sig inst with
    | none => rfl
    | some e =>
      obtain ⟨dec, si', di', preSrc', postSrc', preDst', postDst', vA, vB,
        pVA, pVB, _, hsi', hdi', hps', hqs', hpd', hqd', hin, hout,
        _, _, _, _, _⟩ := reconstructInst_some_inv cfg keys pre post bt sig inst e hr
      rw [hsi] at hsi'
      rw [hdi] at hdi'
      obtain rfl : si = si' := Option.some.inj hsi'
      obtain rfl : di = di' := Option.some.inj hdi'
      rw [hps] at hps'
      rw [hqs] at hqs'
      rw [hpd] at hpd'
      rw [hqd] at hqd'
      obtain rfl : preSrc = preSrc' := Option.some.inj hps'
      obtain rfl : postSrc = postSrc' := Option.some.inj hqs'
      obtain rfl : preDst = preDst' := Option.some.inj hpd'
      obtain rfl : postDst = postDst' := Option.some.inj hqd'
      omega
  · intro e h
    obtain ⟨dec, si, di, preSrc, postSrc, preDst, postDst, vA, vB, pVA, pVB,
      _, _, _, _, _, _, _, hin, hout, _, _, _, _, he⟩ :=
      reconstructInst_some_inv cfg keys pre post bt sig inst e h
    subst he
    dsimp only
    have hinq : (0 : ℚ) < ((-diffAmount (some preSrc) (some postSrc) : Int) : ℚ) := by
      have h1 : (0 : Int) < -diffAmount (some preSrc) (some postSrc) := by omega
      exact_mod_cast h1
    have houtq : (0 : ℚ) < ((diffAmount (some preDst) (some postDst) : Int) : ℚ) := by
      exact_mod_cast hout
    have hA : (0 : ℚ) < (10 : ℚ) ^ cfg.decimalsA := by positivity
    have hB : (0 : ℚ) < (10 : ℚ) ^ cfg.decimalsB := by positivity
    constructor
    · by_cases hb : (preSrc.mint == cfg.mintA) = true
      · rw [if_pos hb]
        exact div_pos hinq hA
      · rw [if_neg hb]
        exact div_pos hinq hB
    · by_cases hb : (preSrc.mint == cfg.mintA) = true
      · rw [if_pos hb]
        exact div_pos houtq hA
      · rw [if_neg hb]
        exact div_pos houtq hB

set_option maxRecDepth 1000000 in
/-- C5 witness: the positivity half of the sign-guard contract applied
to the concrete A→B swap `txAW`, and the rejection half applied to a
variant of `txAW` whose destination balance does not increase. -/
theorem reconstructInst_sign_guard_witness :
    0 < evAW.amountIn ∧ 0 < evAW.amountOut :=
  (reconstructInst_sign_guard cfgW keysW txAW.preTokenBalances
    txAW.postTokenBalances txAW.blockTime 7 instW).2 evAW
    (by with_unfolding_all decide)

/-- C7: every emitted event's `poolPrice` is the ratio of the two
vaults' post-transaction reserves, each converted with its own mint's
precision (`toFloatB reserveB / toFloatA reserveA`); and an instruction
whose vault accounts cannot be resolved, or whose vault post-balances
cannot be found, produces no event. -/
theorem reconstructInst_poolPrice (cfg : Config) (keys : List Nat)
    (pre post : List TokenBalance) (bt : Option Int) (sig : Nat)
    (inst : Instruction) :
    (∀ e vAIdx vBIdx postVA postVB,
      reconstructInst cfg keys pre post bt sig inst = some e →
      indexOfKey keys cfg.vaultA = some vAIdx →
      indexOfKey keys cfg.vaultB = some vBIdx →
      findBal post vAIdx = some postVA →
      findBal post vBIdx = some postVB →
      e.poolPrice = toFloatB cfg (postVB.amount : Int) /
        toFloatA cfg (postVA.amount : Int)) ∧
    ((indexOfKey keys cfg.vaultA = none ∨ indexOfKey keys cfg.vaultB = none) →
      reconstructInst cfg keys pre post bt sig inst = none) ∧
    (∀ vAIdx vBIdx,
      indexOfKey keys cfg.vaultA = some vAIdx →
      indexOfKey keys cfg.vaultB = some vBIdx →
      (findBal post vAIdx = none ∨ findBal post vBIdx = none) →
      reconstructInst cfg keys pre post bt sig inst = none) := by
  refine ⟨?_, ?_, ?_⟩
  · intro e vAIdx vBIdx postVA postVB h hva hvb hpa hpb
    obtain ⟨dec, si, di, preSrc, postSrc, preDst, postDst, vA, vB, pVA, pVB,
      _, _, _, _, _, _, _, _, _, hva', hvb', hpa', hpb', he⟩ :=
      reconstructInst_some_inv cfg keys pre post bt sig inst e h
    rw [hva] at hva'
    rw [hvb] at hvb'
    obtain rfl : vAIdx = vA := Option.some.inj hva'
    obtain rfl : vBIdx = vB := Option.some.inj hvb'
    rw [hpa] at hpa'
    rw [hpb] at hpb'
    obtain rfl : postVA = pVA := Option.some.inj hpa'
    obtain rfl : postVB = pVB := Option.some.inj hpb'
    subst he
    rfl
  · intro hmiss
    cases hr : reconstructInst cfg keys pre post bt sig inst with
    | none => rfl
    | some e =>
      obtain ⟨dec, si, di, preSrc, postSrc, preDst, postDst, vA, vB, pVA, pVB,
        _, _, _, _, _, _, _, _, _, hva', hvb', _, _, _⟩ :=
        reconstructInst_some_inv cfg keys pre post bt sig inst e hr
      rcases hmiss with hm | hm
      · rw [hm] at hva'
        exact Option.noConfusion hva'
      · rw [hm] at hvb'
        exact Option.noConfusion hvb'
  · intro vAIdx vBIdx hva hvb hmiss
    cases hr : reconstructInst cfg keys pre post bt sig inst with
    | none => rfl
    | some e =>
      obtain ⟨dec, si, di, preSrc, postSrc, preDst, postDst, vA, vB, pVA, pVB,
        _, _, _, _, _, _, _, _, _, hva', hvb', hpa', hpb', _⟩ :=
        reconstructInst_some_inv cfg keys pre post bt sig inst e hr
      rw [hva] at hva'
      rw [hvb] at hvb'
      obtain rfl : vAIdx = vA := Option.some.inj hva'
      obtain rfl : vBIdx = vB := Option.some.inj hvb'
      rcases hmiss with hm | hm
      · rw [hm] at hpa'
        exact Option.noConfusion hpa'
      · rw [hm] at hpb'
        exact Option.noConfusion hpb'

set_option maxRecDepth 1000000 in
/-- C7 witness: the pool-price law evaluated on the concrete A→B swap
`txAW`, whose vault post-balances are 50 (vault A) and 75 (vault B). -/
theorem reconstructInst_poolPrice_witness :
    evAW.poolPrice = toFloatB cfgW ((75 : Nat) : Int) /
      toFloatA cfgW ((50 : Nat) : Int) :=
  (reconstructInst_poolPrice cfgW keysW txAW.preTokenBalances
    txAW.postTokenBalances txAW.blockTime 7 instW).1 evAW 2 3
    ⟨2, 100, 50⟩ ⟨3, 200, 75⟩ (by with_unfolding_all decide)
    (by decide) (by decide) (by decide) (by decide)

/-- The state after delivering signature 2 (`txTrimW`) to `stC3`: the
seen set overflows 10000 entries and is trimmed to its newest 5000, which
evicts signature 1. -/
def stMidC3 : IndexerState :=
  { seen := ((List.range 10000).map (fun i => i + 10)).drop 5001 ++ [2],
    chartData := [evA1W], lastSavedSignature := some 2, db := [],
    lastFlushed := 0 }

/-- The state after then re-delivering signature 1: its event is pushed
onto `chartData` a second time. -/
def stFinC3 : IndexerState :=
  { seen := (((List.range 10000).map (fun i => i + 10)).drop 5001 ++ [2]) ++ [1],
    chartData := [evA1W, evA1W], lastSavedSignature := some 1, db := [],
    lastFlushed := 0 }

theorem handleTx_stC3_two : handleTx cfgW ledgerC3 2 none stC3 = stMidC3 := by
  have hseen2 : (2 : Nat) ∉ stC3.seen := by
    simp only [stC3, List.mem_cons, List.mem_map, List.mem_range]
    rintro (h | ⟨i, hi, hie⟩) <;> omega
  rw [handleTx_full cfgW ledgerC3 2 none stC3 txTrimW hseen2 rfl rfl rfl rfl]
  rw [show (txTrimW.instructions.filter
        (fun i => i.programId == cfgW.tokenSwapProgram)).filterMap
      (reconstructInst cfgW txTrimW.accountKeys txTrimW.preTokenBalances
        txTrimW.postTokenBalances txTrimW.blockTime 2) = ([] : List SwapData)
    from by decide]
  rw [List.append_nil]
  unfold trimSeen
  have hlen : ({ stC3 with seen := stC3.seen ++ [2] } : IndexerState).seen.length
      = 10002 := by
    simp [stC3]
  rw [if_pos (by rw [hlen]; omega)]
  rw [hlen]
  have hdrop : (stC3.seen ++ [2]).drop (10002 - 5000) =
      ((List.range 10000).map (fun i => i + 10)).drop 5001 ++ [2] := by
    show (stC3.seen ++ [2]).drop 5002 = _
    rw [show stC3.seen = 1 :: (List.range 10000).map (fun i => i + 10) from rfl]
    rw [List.cons_append, show (5002 : Nat) = 5001 + 1 from rfl,
      List.drop_succ_cons]
    rw [List.drop_append_of_le_length (by simp)]
  simp only [hdrop]
  rfl

set_option maxRecDepth 1000000 in
theorem handleTx_stMidC3_one : handleTx cfgW ledgerC3 1 none stMidC3 = stFinC3 := by
  have hseen1 : (1 : Nat) ∉ stMidC3.seen := by
    simp only [stMidC3, List.mem_append, List.mem_singleton]
    rintro (h | h)
    · rcases List.mem_map.mp (List.mem_of_mem_drop h) with ⟨i, hi, hie⟩
      omega
    · omega
  rw [handleTx_full cfgW ledgerC3 1 none stMidC3 txAW hseen1 rfl rfl rfl rfl]
  rw [show (txAW.instructions.filter
        (fun i => i.programId == cfgW.tokenSwapProgram)).filterMap
      (reconstructInst cfgW txAW.accountKeys txAW.preTokenBalances
        txAW.postTokenBalances txAW.blockTime 1) = [evA1W]
    from by with_unfolding_all decide]
  unfold trimSeen
  rw [if_neg (by simp [stMidC3])]
  rfl

theorem insertOrIgnore_sig_nodup (db : List SwapData) (row : SwapData)
    (h : (db.map SwapData.signature).Nodup) :
    ((insertOrIgnore db row).map SwapData.signature).Nodup := by
  unfold insertOrIgnore
  split
  · exact h
  next hany =>
    have hne : ∀ r ∈ db, r.signature ≠ row.signature := by
      intro r hr hc
      exact hany (List.any_eq_true.mpr ⟨r, hr, by simp [hc]⟩)
    rw [List.map_append]
    refine List.Nodup.append h (List.nodup_singleton _) ?_
    intro a ha hb
    rcases List.mem_map.mp ha with ⟨r, hr, rfl⟩
    rcases List.mem_map.mp hb with ⟨r2, hr2, he2⟩
    rcases List.mem_singleton.mp hr2 with rfl
    exact hne r hr he2.symm

theorem foldl_insertOrIgnore_sig_nodup (rows : List SwapData)
    (db : List SwapData) (h : (db.map SwapData.signature).Nodup) :
    ((rows.foldl insertOrIgnore db).map SwapData.signature).Nodup := by
  induction rows generalizing db with
  | nil => exact h
  | cons r rows ih => exact ih _ (insertOrIgnore_sig_nodup db r h)

/-- C3 (counterexample): delivering signature 1 a second time after the
seen set has been trimmed (signature 2's transaction pushed the set past
10000 entries, evicting signature 1) leaves TWO `chartData` entries with
signature 1, while the durable store still holds exactly one row for it
(`INSERT OR IGNORE` against the `signature` primary key).  The start
state `stC3` is reached from the empty state by delivering signature 1
and then 10000 filler signatures. -/
theorem duplicate_chartData_after_eviction :
    sigCount (flushToDB (handleTx cfgW ledgerC3 1 none
        (handleTx cfgW ledgerC3 2 none stC3))).chartData 1 = 2 ∧
    sigCount (flushToDB (handleTx cfgW ledgerC3 1 none
        (handleTx cfgW ledgerC3 2 none stC3))).db 1 = 1 := by
  rw [handleTx_stC3_two, handleTx_stMidC3_one]
  rw [show flushToDB stFinC3 =
      { stFinC3 with db := [evA1W], lastFlushed := 2 } from by
    unfold flushToDB
    rw [if_neg (by decide)]
    rfl]
  constructor
  · decide
  · decide

/-- C3 (amended): re-delivering a signature while it is still in the
seen set leaves the number of its `chartData` entries unchanged, and a
flush never creates a second store row for an already-stored signature
(the store keeps at most one row per signature); only when the signature
has been evicted from the seen set between the two deliveries can
`chartData` gain a second entry. -/
theorem redelivery_idempotent (cfg : Config) (ledger : Nat → Option Tx)
    (sig : Nat) (slot : Option Nat) (st st' : IndexerState)
    (h : sig ∈ st.seen)
    (hdb : (st'.db.map SwapData.signature).Nodup) :
    sigCount (handleTx cfg ledger sig slot st).chartData sig =
      sigCount st.chartData sig ∧
    ((flushToDB st').db.map SwapData.signature).Nodup := by
  constructor
  · unfold handleTx
    rw [if_pos h]
  · unfold flushToDB
    split
    · exact hdb
    · exact foldl_insertOrIgnore_sig_nodup _ _ hdb

/-- C3 (amended) witness: re-delivery of the already-seen signature 42,
and a flush of a one-event buffer into an empty store. -/
theorem redelivery_idempotent_witness :
    sigCount (handleTx cfgW ledgerBW 42 none
        { st0 with seen := [42] }).chartData 42 =
      sigCount ({ st0 with seen := [42] } : IndexerState).chartData 42 ∧
    ((flushToDB { st0 with chartData := [evBW] }).db.map
        SwapData.signature).Nodup :=
  redelivery_idempotent cfgW ledgerBW 42 none { st0 with seen := [42] }
    { st0 with chartData := [evBW] } (by decide) (by decide)

/-- Pre-balance list in which the user-destination account (index 1)
has NO pre-transaction snapshot entry. -/
def preMissW : List TokenBalance := [⟨0, 200, 10⟩]

/-- The same pre-balance list with the missing destination entry added
back (with amount 0, i.e. exactly the value the treat-as-zero rule would
assume). -/
def preFixedW : List TokenBalance := [⟨0, 200, 10⟩, ⟨1, 100, 0⟩]

/-- Post-balance list for the missing-snapshot scenario: a valid B→A
swap shape with both vault balances present. -/
def postMissW : List TokenBalance :=
  [⟨0, 200, 8⟩, ⟨1, 100, 1⟩, ⟨2, 100, 100⟩, ⟨3, 200, 200⟩]

/-- C4 (counterexample): an otherwise valid swap instruction whose
user-destination account merely lacks its pre-transaction snapshot is
rejected (no event), even though adding the snapshot back with amount 0
— the exact value the treat-as-zero rule prescribes — makes the very
same instruction emit an event.  `handleTx` checks
`if (!preSrc || !postSrc || !preDst || !postDst) continue` before ever
calling `diffAmount`. -/
theorem missing_snapshot_rejected :
    reconstructInst cfgW keysW preMissW postMissW (some 1111) 7 instW = none ∧
    (reconstructInst cfgW keysW preFixedW postMissW (some 1111) 7 instW).isSome
      = true := by
  constructor
  · decide
  · decide

/-- C4 (amended): `diffAmount` itself treats a missing snapshot on
either side as zero (it is still computed), but `handleTx` rejects an
instruction whenever any of the four pre/post snapshots of its resolved
source/destination accounts is absent, before `diffAmount` is consulted. -/
theorem diffAmount_missing_and_rejection (cfg : Config) (keys : List Nat)
    (pre post : List TokenBalance) (bt : Option Int) (sig : Nat)
    (inst : Instruction) :
    (∀ b : TokenBalance,
      diffAmount none (some b) = (b.amount : Int) ∧
      diffAmount (some b) none = -(b.amount : Int) ∧
      diffAmount none none = 0) ∧
    (∀ si di,
      resolvedSrcIdx keys inst = some si →
      resolvedDstIdx keys inst = some di →
      (findBal pre si = none ∨ findBal post si = none ∨
        findBal pre di = none ∨ findBal post di = none) →
      reconstructInst cfg keys pre post bt sig inst = none) := by
  constructor
  · intro b
    refine ⟨by simp [diffAmount], by simp [diffAmount], by simp [diffAmount]⟩
  · intro si di hsi hdi hmiss
    cases hr : reconstructInst cfg keys pre post bt sig inst with
    | none => rfl
    | some e =>
      obtain ⟨dec, si', di', preSrc, postSrc, preDst, postDst, vA, vB, pVA,
        pVB, _, hsi', hdi', hps', hqs', hpd', hqd', _, _, _, _, _, _, _⟩ :=
        reconstructInst_some_inv cfg keys pre post bt sig inst e hr
      rw [hsi] at hsi'
      rw [hdi] at hdi'
      obtain rfl : si = si' := Option.some.inj hsi'
      obtain rfl : di = di' := Option.some.inj hdi'
      rcases hmiss with hm | hm | hm | hm
      · rw [hm] at hps'
        exact Option.noConfusion hps'
      · rw [hm] at hqs'
        exact Option.noConfusion hqs'
      · rw [hm] at hpd'
        exact Option.noConfusion hpd'
      · rw [hm] at hqd'
        exact Option.noConfusion hqd'

/-- C4 (amended) witness: the rejection branch applied to the concrete
missing-snapshot input, and the treat-as-zero law of `diffAmount` at a
concrete balance entry. -/
theorem diffAmount_missing_and_rejection_witness :
    reconstructInst cfgW keysW preMissW postMissW (some 1111) 7 instW = none ∧
    diffAmount none (some ⟨1, 100, 1⟩) = ((1 : Nat) : Int) :=
  ⟨(diffAmount_missing_and_rejection cfgW keysW preMissW postMissW
      (some 1111) 7 instW).2 0 1 (by decide) (by decide)
      (Or.inr (Or.inr (Or.inl (by decide)))),
    ((diffAmount_missing_and_rejection cfgW keysW preMissW postMissW
      (some 1111) 7 instW).1 ⟨1, 100, 1⟩).1⟩

end AmmIndexer
